import Mathlib

/-!
Shallow embedding of the two utility scripts of this repository and proofs
about the properties their documentation claims.

* `scripts/generate_data_code_section.py` — a README "Data & Code
  Availability" section generator (namespace `DataCodeSection`).
* `scripts/upload_to_zenodo.py` — a GitHub-release-to-Zenodo publisher
  (namespace `ZenodoUpload`).

Python strings are modelled as `List Char`.  `str.replace` (which replaces
every non-overlapping occurrence, scanning left to right) is `replaceAll`;
the Python substring test `pat in s` is `containsSub`.
-/

set_option maxRecDepth 4096

namespace DataCodeSection

/-- `startsWithCh pat s` : the character list `pat` is an initial segment of
`s` — the comparison Python performs at each scan position of `str.replace`
and `in`. -/
def startsWithCh : List Char → List Char → Bool
  | [], _ => true
  | _ :: _, [] => false
  | p :: ps, c :: cs => p == c && startsWithCh ps cs

/-- Fuel-driven worker for `replaceAll`.  The fuel is an upper bound on the
length of the remaining text, so with fuel `s.length` the scan never runs
out; the fuel only makes the recursion structural. -/
def replaceAllAux (pat rep : List Char) : Nat → List Char → List Char
  | _, [] => []
  | 0, s => s
  | fuel + 1, c :: cs =>
    if startsWithCh pat (c :: cs) then
      rep ++ replaceAllAux pat rep fuel ((c :: cs).drop pat.length)
    else
      c :: replaceAllAux pat rep fuel cs

/-- Python `s.replace(pat, rep)` for a nonempty pattern `pat`: replace every
non-overlapping occurrence of `pat` in `s`, scanning left to right.  (The
script only ever replaces the two fixed nonempty marker strings.) -/
def replaceAll (s pat rep : List Char) : List Char :=
  if pat = [] then s else replaceAllAux pat rep s.length s

/-- Python `pat in s` : `pat` occurs as a contiguous substring of `s`. -/
def containsSub (s pat : List Char) : Bool :=
  match s with
  | [] => pat.isEmpty
  | c :: cs => startsWithCh pat (c :: cs) || containsSub cs pat

/-- The first placeholder marker of `update_readme`. -/
def TABLES_AUTO : List Char := "<!-- TABLES_AUTO -->".data

/-- The second placeholder marker of `update_readme`. -/
def FIGS_AUTO : List Char := "<!-- FIGS_AUTO -->".data

/-- The text transformation performed by `update_readme` on the README
content (`generate_data_code_section.py`, lines 96–108): if the tables
marker occurs, replace all its occurrences; then, if the figures marker
occurs in the (possibly already updated) text, replace all its
occurrences. -/
def update_text (text tables_block figs_block : List Char) : List Char :=
  let t1 := if containsSub text TABLES_AUTO then
              replaceAll text TABLES_AUTO tables_block
            else text
  if containsSub t1 FIGS_AUTO then replaceAll t1 FIGS_AUTO figs_block else t1

/-- The part of the filesystem `update_readme` can touch: whether
`README.md` exists under the root, and its content. -/
structure ReadmeFS where
  readmeExists : Bool
  content : List Char
deriving DecidableEq

/-- `update_readme` (`generate_data_code_section.py`, lines 88–109).  If the
README is missing it prints a warning and returns without writing; otherwise
it rewrites the file with the transformed text.  The returned `Bool` records
whether `write_text` was called. -/
def update_readme (fs : ReadmeFS) (tables_block figs_block : List Char) :
    ReadmeFS × Bool :=
  if fs.readmeExists then
    ({ fs with content := update_text fs.content tables_block figs_block }, true)
  else
    (fs, false)

/-- Replace only the first occurrence of `pat` in `s`.  This definition
formalises the words of the claim "replaces each token exactly once (one
substitution per token)"; it is *not* what the source does (the source uses
Python `str.replace`, i.e. `replaceAll`) and exists to be compared with the
source behaviour. -/
def replaceOnce (s pat rep : List Char) : List Char :=
  match s with
  | [] => []
  | c :: cs =>
    if startsWithCh pat (c :: cs) then rep ++ (c :: cs).drop pat.length
    else c :: replaceOnce cs pat rep

/-- The fixed description table of `describe_table`
(`generate_data_code_section.py`, lines 37–44), in its insertion order,
which is the iteration order of a Python dict. -/
def descriptions : List (List Char × String) :=
  [("Fig1_InfoArchitecture".data,
    "Reduced informational coordinates and cluster assignments (Fig. 1)."),
   ("Fig2_Separation".data,
    "State separation metrics and pairwise distances (Fig. 2)."),
   ("Fig3_VulnerabilityCurves".data,
    "Vulnerability curves across perturbation fractions (Fig. 3)."),
   ("Fig4_VulnerabilitySummary".data,
    "Summary vulnerability metrics by state and donor (Fig. 4)."),
   ("ED2_TDA".data,
    "Topological Data Analysis persistence summaries (Extended Data 2)."),
   ("ED_Supplementary".data,
    "Additional supplementary data tables.")]

/-- The `for key, desc in descriptions.items()` loop of `describe_table`:
return the description of the first key occurring in `name`. -/
def lookupDesc (name : List Char) : List (List Char × String) → Option String
  | [] => none
  | (key, desc) :: rest =>
    if containsSub name key then some desc else lookupDesc name rest

/-- A file found by the directory scan, reduced to the attributes the script
reads: `filepath.name`, `filepath.parent.name`, and the path relative to the
scanned root. -/
structure FileEntry where
  name : List Char
  parentName : String
  relPath : String
deriving DecidableEq

/-- `describe_table` (`generate_data_code_section.py`, lines 34–50). -/
def describe_table (filepath : FileEntry) : String :=
  match lookupDesc filepath.name descriptions with
  | some d => d
  | none => "Processed analysis table."

/-- `generate_tables_section` (`generate_data_code_section.py`, lines
53–70), as a function of the sorted `*.tsv` scan result. -/
def generate_tables_section (tsv_files : List FileEntry) : String :=
  if tsv_files.isEmpty then
    "*No processed data files found. Tables will be added as analysis progresses.*"
  else
    let lines := (tsv_files.filter (fun fp => !(fp.parentName == "metadata"))).map
      (fun fp => "- `" ++ fp.relPath ++ "` – " ++ describe_table fp)
    if lines.isEmpty then "*No processed data files found.*"
    else String.intercalate "\n" lines

/-- `generate_figures_section` (`generate_data_code_section.py`, lines
73–85), as a function of the sorted `Fig*.pdf` scan result. -/
def generate_figures_section (pdf_files : List FileEntry) : String :=
  if pdf_files.isEmpty then
    "*Figure PDFs will be added upon completion of analysis.*"
  else
    let lines := pdf_files.map (fun fp => "- `" ++ fp.relPath ++ "`")
    if lines.isEmpty then "*No figure PDFs found.*"
    else String.intercalate "\n" lines

end DataCodeSection

namespace ZenodoUpload

/-- `ZENODO_SANDBOX` (`upload_to_zenodo.py`, line 27). -/
def ZENODO_SANDBOX : String := "https://sandbox.zenodo.org/api"

/-- `ZENODO_PROD` (`upload_to_zenodo.py`, line 28). -/
def ZENODO_PROD : String := "https://zenodo.org/api"

/-- `self.base_url` as set in `ZenodoUploader.__init__` (line 42). -/
def base_url (use_sandbox : Bool) : String :=
  if use_sandbox then ZENODO_SANDBOX else ZENODO_PROD

/-- The kind of a remote HTTP request the script can issue. -/
inductive NetCall where
  | releaseLookup : NetCall
  | assetDownload : Nat → NetCall
  | createDep : NetCall
  | uploadFile : Nat → NetCall
  | publish : NetCall
deriving DecidableEq

/-- One remote request: its kind and the URL it is sent to.  Assets and
uploads are identified by their position in the iteration order of the
corresponding `for` loop. -/
structure Call where
  kind : NetCall
  url : String
deriving DecidableEq

/-- One GitHub release asset as the script reads it: its `name`, its
`browser_download_url`, and whether the GET of that URL returns a success
status (`response.raise_for_status()` not raising). -/
structure Asset where
  name : String
  browser_download_url : String
  dlOk : Bool
deriving DecidableEq

/-- The command-line arguments of `main` that influence control flow or the
produced URLs (lines 169–203). -/
structure Args where
  repo_owner : String
  repo_name : String
  tag : String
  sandbox : Bool
  skip_download : Bool

/-- The environment of one run: the `ZENODO_TOKEN` variable, the local
filesystem, and the outcome of every remote request the run could make.
Success flags model `response.raise_for_status()`: `false` means the
response is non-success, so the call raises `HTTPError`. -/
structure World where
  tokenPresent : Bool
  metadataExists : Bool
  metadataParses : Bool
  releaseOk : Bool
  assets : List Asset
  stagedFiles : List String
  createOk : Bool
  depositionId : Nat
  uploadOk : Nat → Bool
  publishOk : Bool
  recordId : Nat
  doi : Option String

/-- The record written to `zenodo_release.json` at the end of a successful
run (lines 263–270); the wall-clock timestamp is not modelled. -/
structure Summary where
  deposition_id : Nat
  record_id : Nat
  doi : Option String
  url : String
  tag : String
deriving DecidableEq

/-- The observable outcome of one run of `main`: the process exit status,
the remote requests issued in order, and the summary file written (if
any). -/
structure RunResult where
  exitCode : Nat
  calls : List Call
  summary : Option Summary
deriving DecidableEq

/-- `gh_url` of `ZenodoUploader.download_release` (line 131). -/
def gh_release_url (owner repo tag : String) : String :=
  "https://api.github.com/repos/" ++ owner ++ "/" ++ repo ++ "/releases/tags/" ++ tag

/-- The GitHub release-lookup request of `download_release` (lines 131–133). -/
def ghCall (args : Args) : Call :=
  ⟨NetCall.releaseLookup, gh_release_url args.repo_owner args.repo_name args.tag⟩

/-- The deposition-creation request of `create_deposition` (lines 55–62). -/
def createCall (args : Args) : Call :=
  ⟨NetCall.createDep, base_url args.sandbox ++ "/deposit/depositions"⟩

/-- The publish request of `publish_deposition` (lines 103–109). -/
def publishCall (args : Args) (w : World) : Call :=
  ⟨NetCall.publish,
   base_url args.sandbox ++ "/deposit/depositions/" ++ toString w.depositionId
     ++ "/actions/publish"⟩

/-- The `for asset in release.get('assets', [])` loop of `download_release`
(lines 137–149): download each asset in order; the first non-success
response raises, aborting the loop.  Returns the requests issued, whether
the loop completed, and the downloaded file names. -/
def runDownloads : List Asset → Nat → List Call × Bool × List String
  | [], _ => ([], true, [])
  | a :: rest, i =>
    if a.dlOk then
      let r := runDownloads rest (i + 1)
      (⟨NetCall.assetDownload i, a.browser_download_url⟩ :: r.1, r.2.1,
       a.name :: r.2.2)
    else
      ([⟨NetCall.assetDownload i, a.browser_download_url⟩], false, [])

/-- The `for file_path in files: uploader.upload_file(...)` loop of `main`
(lines 243–244) together with `upload_file` (lines 67–92): one POST per
file, in order; the first non-success response raises, aborting the loop. -/
def runUploads (sandbox : Bool) (depId : Nat) (ok : Nat → Bool) :
    List String → Nat → List Call × Bool
  | [], _ => ([], true)
  | _f :: rest, i =>
    let c : Call := ⟨NetCall.uploadFile i,
      base_url sandbox ++ "/deposit/depositions/" ++ toString depId ++ "/files"⟩
    if ok i then
      let r := runUploads sandbox depId ok rest (i + 1)
      (c :: r.1, r.2)
    else
      ([c], false)

/-- The file-acquisition step of `main` (lines 225–230): either
`download_release` (release lookup, then the asset loop) or, with
`--skip-download`, a glob of the local `releases` directory.  Returns
`none` when an HTTP error raised (caught later by the `except` block),
together with the requests issued. -/
def downloadPhase (args : Args) (w : World) : Option (List String) × List Call :=
  if args.skip_download then (some w.stagedFiles, [])
  else
    if w.releaseOk then
      let r := runDownloads w.assets 0
      (if r.2.1 then some r.2.2 else none, ghCall args :: r.1)
    else (none, [ghCall args])

/-- The tail of `main` after the file list is known (lines 232–277): the
empty-list check, deposition creation, the upload loop, the publish call,
and the summary write.  `cs` is the trace of requests already issued. -/
def afterFiles (args : Args) (w : World) (files : List String)
    (cs : List Call) : RunResult :=
  if files.isEmpty then ⟨1, cs, none⟩
  else if !w.createOk then ⟨1, cs ++ [createCall args], none⟩
  else
    match runUploads args.sandbox w.depositionId w.uploadOk files 0 with
    | (ucs, false) => ⟨1, cs ++ createCall args :: ucs, none⟩
    | (ucs, true) =>
      if !w.publishOk then
        ⟨1, cs ++ createCall args :: (ucs ++ [publishCall args w]), none⟩
      else
        ⟨0, cs ++ createCall args :: (ucs ++ [publishCall args w]),
         some ⟨w.depositionId, w.recordId, w.doi,
               "https://zenodo.org/record/" ++ toString w.recordId,
               args.tag⟩⟩

/-- `main` of `upload_to_zenodo.py` (lines 167–283) combined with the
`sys.exit(main())` entry point (line 287), as a function from the world to
the observable run outcome.  `sys.exit(1)` calls inside the `try` block
raise `SystemExit`, which `except Exception` does not catch, so they also
terminate the process with status 1; an `HTTPError` from any remote call
and a metadata-parse error are caught and turned into `return 1`. -/
def main (args : Args) (w : World) : RunResult :=
  if !w.tokenPresent then ⟨1, [], none⟩
  else if !w.metadataExists then ⟨1, [], none⟩
  else if !w.metadataParses then ⟨1, [], none⟩
  else
    match downloadPhase args w with
    | (none, cs) => ⟨1, cs, none⟩
    | (some files, cs) => afterFiles args w files cs

/-- Whether, in world `w`, the remote request of the given kind returns a
non-success response (so that `raise_for_status` raises). -/
def callFails (w : World) : NetCall → Bool
  | NetCall.releaseLookup => !w.releaseOk
  | NetCall.assetDownload i =>
    !(match w.assets.get? i with
      | some a => a.dlOk
      | none => true)
  | NetCall.createDep => !w.createOk
  | NetCall.uploadFile i => !w.uploadOk i
  | NetCall.publish => !w.publishOk

/-- Concrete arguments: sandbox run that skips the GitHub download. -/
def argsSkip : Args :=
  ⟨"elkinnavarro-glitch", "immune-state-geometry-scATAC", "v1.0.0", true, true⟩

/-- Concrete arguments: sandbox run that downloads the release assets. -/
def argsDl : Args :=
  ⟨"elkinnavarro-glitch", "immune-state-geometry-scATAC", "v1.0.0", true, false⟩

/-- Concrete world in which every step succeeds. -/
def wAllOk : World :=
  { tokenPresent := true
    metadataExists := true
    metadataParses := true
    releaseOk := true
    assets := [⟨"code.zip", "https://example.org/code.zip", true⟩,
               ⟨"data.tar.gz", "https://example.org/data.tar.gz", true⟩]
    stagedFiles := ["code.zip"]
    createOk := true
    depositionId := 7
    uploadOk := fun _ => true
    publishOk := true
    recordId := 42
    doi := some "10.5281/zenodo.42" }

/-- Concrete world in which the download of the second asset fails. -/
def wBadDl : World :=
  { wAllOk with
    assets := [⟨"code.zip", "https://example.org/code.zip", true⟩,
               ⟨"data.tar.gz", "https://example.org/data.tar.gz", false⟩] }

/-- Concrete world in which `ZENODO_TOKEN` is not set. -/
def wNoToken : World := { wAllOk with tokenPresent := false }

end ZenodoUpload

example : (ZenodoUpload.main ZenodoUpload.argsDl ZenodoUpload.wAllOk).exitCode = 0 := by decide

example : (ZenodoUpload.main ZenodoUpload.argsDl ZenodoUpload.wAllOk).calls.length = 7 := by decide

example : (ZenodoUpload.main ZenodoUpload.argsDl ZenodoUpload.wBadDl).calls =
    [⟨ZenodoUpload.NetCall.releaseLookup,
      "https://api.github.com/repos/elkinnavarro-glitch/immune-state-geometry-scATAC/releases/tags/v1.0.0"⟩,
     ⟨ZenodoUpload.NetCall.assetDownload 0, "https://example.org/code.zip"⟩,
     ⟨ZenodoUpload.NetCall.assetDownload 1, "https://example.org/data.tar.gz"⟩] := by decide

example : (ZenodoUpload.main ZenodoUpload.argsDl ZenodoUpload.wBadDl).exitCode = 1 := by decide

namespace DataCodeSection

/-- C9: when `README.md` does not exist under the root, `update_readme`
writes no file at all: it prints a warning and returns, leaving the
filesystem unchanged. -/
theorem update_readme_missing_writes_nothing (fs : ReadmeFS)
    (tables_block figs_block : List Char) (h : fs.readmeExists = false) :
    update_readme fs tables_block figs_block = (fs, false) := by
  simp [update_readme, h]

/-- Witness for C9 at a concrete missing README. -/
theorem update_readme_missing_writes_nothing_w :
    update_readme ⟨false, "# hi".data⟩ "T".data "F".data
      = (⟨false, "# hi".data⟩, false) :=
  update_readme_missing_writes_nothing _ _ _ rfl

/-- C1 fails as stated: this README contains the tables marker but not the
figures marker — hence not *both* markers — yet `update_readme` changes its
content, because the source replaces each marker independently. -/
theorem update_readme_one_marker_changes :
    (containsSub "x<!-- TABLES_AUTO -->y".data TABLES_AUTO = true ∧
     containsSub "x<!-- TABLES_AUTO -->y".data FIGS_AUTO = false) ∧
    (update_readme ⟨true, "x<!-- TABLES_AUTO -->y".data⟩ "T".data "F".data).1.content
      ≠ "x<!-- TABLES_AUTO -->y".data := by
  decide

/-- C1 (amended): a target README document that contains *neither*
placeholder marker is left byte-for-byte unchanged by the update step. -/
theorem update_readme_neither_marker_unchanged (fs : ReadmeFS)
    (tables_block figs_block : List Char)
    (hT : containsSub fs.content TABLES_AUTO = false)
    (hF : containsSub fs.content FIGS_AUTO = false) :
    (update_readme fs tables_block figs_block).1.content = fs.content := by
  cases h : fs.readmeExists with
  | false => simp [update_readme, h]
  | true => simp [update_readme, h, update_text, hT, hF]

/-- Witness for the amended C1 at a concrete marker-free README. -/
theorem update_readme_neither_marker_unchanged_w :
    (update_readme ⟨true, "# readme".data⟩ "T".data "F".data).1.content
      = "# readme".data :=
  update_readme_neither_marker_unchanged _ _ _ (by decide) (by decide)

/-- C7: on inputs with zero qualifying files each section generator returns
its defined placeholder message, which is not the empty string; being total
Lean functions they raise no error. -/
theorem sections_placeholder_nonempty (tsv_files pdf_files : List FileEntry)
    (ht : tsv_files.filter (fun fp => !(fp.parentName == "metadata")) = [])
    (hp : pdf_files = []) :
    (generate_tables_section tsv_files =
       "*No processed data files found. Tables will be added as analysis progresses.*"
     ∨ generate_tables_section tsv_files = "*No processed data files found.*") ∧
    generate_tables_section tsv_files ≠ "" ∧
    generate_figures_section pdf_files =
      "*Figure PDFs will be added upon completion of analysis.*" ∧
    generate_figures_section pdf_files ≠ "" := by
  subst hp
  cases tsv_files with
  | nil => exact ⟨Or.inl rfl, by decide, rfl, by decide⟩
  | cons a rest =>
    have h2 : generate_tables_section (a :: rest)
        = "*No processed data files found.*" := by
      simp [generate_tables_section, ht]
    exact ⟨Or.inr h2, by rw [h2]; decide, rfl, by decide⟩

/-- Witness for C7: a root whose only TSV sits in a `metadata` directory and
that has no figure PDFs. -/
theorem sections_placeholder_nonempty_w :
    (generate_tables_section [⟨"samples.tsv".data, "metadata", "metadata/samples.tsv"⟩]
       = "*No processed data files found. Tables will be added as analysis progresses.*"
     ∨ generate_tables_section [⟨"samples.tsv".data, "metadata", "metadata/samples.tsv"⟩]
       = "*No processed data files found.*") ∧
    generate_tables_section [⟨"samples.tsv".data, "metadata", "metadata/samples.tsv"⟩] ≠ "" ∧
    generate_figures_section [] =
      "*Figure PDFs will be added upon completion of analysis.*" ∧
    generate_figures_section ([] : List FileEntry) ≠ "" :=
  sections_placeholder_nonempty _ _ (by decide) rfl

/-- A `lookupDesc` scan over entries none of whose keys occur in the name
returns `none`. -/
lemma lookupDesc_eq_none (name : List Char) (l : List (List Char × String))
    (h : ∀ p ∈ l, containsSub name p.1 = false) : lookupDesc name l = none := by
  induction l with
  | nil => rfl
  | cons p rest ih =>
    obtain ⟨key, desc⟩ := p
    have hp := h (key, desc) (List.mem_cons_self _ _)
    simp only [lookupDesc, hp, Bool.false_eq_true, if_false]
    exact ih fun q hq => h q (List.mem_cons_of_mem _ hq)

/-- A `lookupDesc` scan returns the description at the first index whose key
occurs in the name. -/
lemma lookupDesc_eq_some (name : List Char) :
    ∀ (l : List (List Char × String)) (i : Nat) (h : i < l.length),
    containsSub name (l.get ⟨i, h⟩).1 = true →
    (∀ p ∈ l.take i, containsSub name p.1 = false) →
    lookupDesc name l = some (l.get ⟨i, h⟩).2 := by
  intro l
  induction l with
  | nil => intro i h; exact absurd h (Nat.not_lt_zero i)
  | cons p rest ih =>
    intro i h hm hb
    obtain ⟨key, desc⟩ := p
    cases i with
    | zero =>
      simp only [List.get] at hm ⊢
      simp only [lookupDesc, hm, if_true]
    | succ j =>
      have hkey : containsSub name key = false := by
        refine hb (key, desc) ?_
        simp [List.take]
      simp only [lookupDesc, hkey, Bool.false_eq_true, if_false]
      refine ih j (Nat.lt_of_succ_lt_succ h) hm fun q hq => hb q ?_
      simp [List.take]
      exact Or.inr hq

/-- C6: `describe_table` returns the description mapped to the first key of
the fixed table that occurs as a substring of the file name, and the generic
fallback description when no key occurs. -/
theorem describe_table_first_match (filepath : FileEntry) :
    ((∀ p ∈ descriptions, containsSub filepath.name p.1 = false) →
       describe_table filepath = "Processed analysis table.") ∧
    (∀ i (h : i < descriptions.length),
       containsSub filepath.name (descriptions.get ⟨i, h⟩).1 = true →
       (∀ p ∈ descriptions.take i, containsSub filepath.name p.1 = false) →
       describe_table filepath = (descriptions.get ⟨i, h⟩).2) := by
  constructor
  · intro h
    unfold describe_table
    rw [lookupDesc_eq_none filepath.name descriptions h]
  · intro i h hm hb
    unfold describe_table
    rw [lookupDesc_eq_some filepath.name descriptions i h hm hb]

/-- Witness for C6: a name matching no key gets the fallback; a name
matching the fifth key (and none before it) gets that key's description. -/
theorem describe_table_first_match_w :
    describe_table ⟨"donor_summary.tsv".data, "tables", "p1"⟩
      = "Processed analysis table." ∧
    describe_table ⟨"ED2_TDA_persistence.tsv".data, "tables", "p2"⟩
      = "Topological Data Analysis persistence summaries (Extended Data 2)." :=
  ⟨(describe_table_first_match _).1 (by decide),
   (describe_table_first_match _).2 4 (by decide) (by decide) (by decide)⟩

/-- Any list is an initial segment of itself followed by anything. -/
lemma startsWithCh_self_append (pat rest : List Char) :
    startsWithCh pat (pat ++ rest) = true := by
  induction pat with
  | nil => rfl
  | cons p ps ih => simp [startsWithCh, ih]

/-- An initial-segment test fails as soon as the heads differ. -/
lemma startsWithCh_head_ne {p c : Char} (ps cs : List Char) (h : p ≠ c) :
    startsWithCh (p :: ps) (c :: cs) = false := by
  simp [startsWithCh, h]

/-- A successful initial-segment test forces agreement on every prefix of
the pattern. -/
lemma take_of_startsWithCh : ∀ (pat s : List Char) (n : Nat),
    startsWithCh pat s = true → n ≤ pat.length → s.take n = pat.take n := by
  intro pat
  induction pat with
  | nil =>
    intro s n _ hn
    have : n = 0 := Nat.le_zero.mp hn
    subst this
    rfl
  | cons p ps ih =>
    intro s n hs hn
    cases s with
    | nil => exact absurd hs (by simp [startsWithCh])
    | cons c cs =>
      simp only [startsWithCh, Bool.and_eq_true, beq_iff_eq] at hs
      obtain ⟨hpc, hrest⟩ := hs
      cases n with
      | zero => rfl
      | succ m =>
        simp only [List.take_succ_cons, hpc]
        rw [ih cs m hrest (Nat.le_of_succ_le_succ hn)]

/-- Contrapositive form: disagreement on some prefix refutes the
initial-segment test. -/
lemma startsWithCh_eq_false_of_take_ne (pat s : List Char) (n : Nat)
    (hn : n ≤ pat.length) (h : pat.take n ≠ s.take n) :
    startsWithCh pat s = false := by
  cases hsw : startsWithCh pat s with
  | false => rfl
  | true => exact absurd (take_of_startsWithCh pat s n hsw hn).symm h

/-- Substring occurrence is preserved by prepending text. -/
lemma containsSub_append_right (x t pat : List Char)
    (h : containsSub t pat = true) : containsSub (x ++ t) pat = true := by
  induction x with
  | nil => exact h
  | cons c cs ih => simp [containsSub, ih]

/-- A pattern occurs in any list it starts. -/
lemma containsSub_at (pat rest : List Char) :
    containsSub (pat ++ rest) pat = true := by
  cases pat with
  | nil =>
    cases rest with
    | nil => rfl
    | cons c cs => simp [containsSub, startsWithCh]
  | cons p ps =>
    have h : startsWithCh (p :: ps) ((p :: ps) ++ rest) = true :=
      startsWithCh_self_append (p :: ps) rest
    show (startsWithCh (p :: ps) ((p :: ps) ++ rest)
        || containsSub (ps ++ rest) (p :: ps)) = true
    rw [h, Bool.true_or]

/-- The fuel of `replaceAllAux` does not matter once it bounds the length of
the text. -/
lemma replaceAllAux_fuel_irrel (pat rep : List Char) (hpat : pat ≠ []) :
    ∀ (f1 f2 : Nat) (s : List Char), s.length ≤ f1 → s.length ≤ f2 →
    replaceAllAux pat rep f1 s = replaceAllAux pat rep f2 s := by
  intro f1
  induction f1 with
  | zero =>
    intro f2 s h1 _
    have hs : s = [] := List.eq_nil_of_length_eq_zero (Nat.le_zero.mp h1)
    subst hs
    cases f2 <;> rfl
  | succ f ih =>
    intro f2 s h1 h2
    cases s with
    | nil => cases f2 <;> rfl
    | cons c cs =>
      cases f2 with
      | zero => exact absurd h2 (by simp)
      | succ g =>
        have hplen : 1 ≤ pat.length := by
          cases pat with
          | nil => exact absurd rfl hpat
          | cons q qs => exact Nat.succ_le_succ (Nat.zero_le _)
        have hdrop : ((c :: cs).drop pat.length).length ≤ cs.length := by
          rw [List.length_drop]
          calc (c :: cs).length - pat.length
              ≤ (c :: cs).length - 1 := Nat.sub_le_sub_left hplen _
            _ = cs.length := by simp
        simp only [replaceAllAux]
        by_cases hsw : startsWithCh pat (c :: cs) = true
        · simp only [hsw, if_true]
          rw [ih g _ (Nat.le_trans hdrop (Nat.le_of_succ_le_succ h1))
              (Nat.le_trans hdrop (Nat.le_of_succ_le_succ h2))]
        · simp only [Bool.not_eq_true] at hsw
          simp only [hsw, Bool.false_eq_true, if_false]
          rw [ih g cs (Nat.le_of_succ_le_succ h1) (Nat.le_of_succ_le_succ h2)]

/-- `replaceAll` on the empty text. -/
lemma replaceAll_nil (pat rep : List Char) : replaceAll [] pat rep = [] := by
  unfold replaceAll
  split <;> rfl

/-- One scanning step of `replaceAll`, mirroring one loop step of the
left-to-right scan of Python `str.replace`. -/
lemma replaceAll_cons (pat rep : List Char) (hpat : pat ≠ []) (c : Char)
    (cs : List Char) :
    replaceAll (c :: cs) pat rep =
      if startsWithCh pat (c :: cs) then
        rep ++ replaceAll ((c :: cs).drop pat.length) pat rep
      else c :: replaceAll cs pat rep := by
  have hplen : 1 ≤ pat.length := by
    cases pat with
    | nil => exact absurd rfl hpat
    | cons q qs => exact Nat.succ_le_succ (Nat.zero_le _)
  have hdrop : ((c :: cs).drop pat.length).length ≤ cs.length := by
    rw [List.length_drop]
    calc (c :: cs).length - pat.length
        ≤ (c :: cs).length - 1 := Nat.sub_le_sub_left hplen _
      _ = cs.length := by simp
  unfold replaceAll
  simp only [hpat, if_false, List.length_cons, replaceAllAux]
  by_cases hsw : startsWithCh pat (c :: cs) = true
  · simp only [hsw, if_true]
    rw [replaceAllAux_fuel_irrel pat rep hpat cs.length _ _ hdrop (Nat.le_refl _)]
  · simp only [Bool.not_eq_true] at hsw
    simp only [hsw, Bool.false_eq_true, if_false]

/-- `replaceAll` for a pattern opening with `<` walks unchanged over a
segment containing no `<`. -/
lemma replaceAll_skip (pat rep ps : List Char) (hp : pat = '<' :: ps)
    (X : List Char) :
    ∀ (rest : List Char), (∀ c ∈ X, c ≠ '<') →
    replaceAll (X ++ rest) pat rep = X ++ replaceAll rest pat rep := by
  induction X with
  | nil => intro rest _; rfl
  | cons x xs ih =>
    intro rest hX
    have hx : x ≠ '<' := hX x (List.mem_cons_self _ _)
    have hpat : pat ≠ [] := by rw [hp]; exact List.cons_ne_nil _ _
    rw [List.cons_append, replaceAll_cons pat rep hpat]
    have hns : startsWithCh pat (x :: (xs ++ rest)) = false := by
      rw [hp]; exact startsWithCh_head_ne ps (xs ++ rest) (Ne.symm hx)
    simp only [hns, Bool.false_eq_true, if_false]
    rw [ih rest fun c hc => hX c (List.mem_cons_of_mem _ hc)]
    rfl

/-- `replaceAll` substitutes an occurrence of the pattern sitting at the
front of the text and continues after it. -/
lemma replaceAll_consume (pat rep rest : List Char) (hpat : pat ≠ []) :
    replaceAll (pat ++ rest) pat rep = rep ++ replaceAll rest pat rep := by
  cases hp : pat with
  | nil => exact absurd hp hpat
  | cons p ps =>
    subst hp
    rw [List.cons_append, replaceAll_cons _ rep hpat]
    have hsw : startsWithCh (p :: ps) (p :: (ps ++ rest)) = true :=
      startsWithCh_self_append (p :: ps) rest
    simp only [hsw, if_true]
    have hd : (p :: (ps ++ rest)).drop (p :: ps).length = rest := by
      rw [List.length_cons, List.drop_succ_cons, List.drop_left]
    rw [hd]

/-- `replaceAll` for a pattern opening with `<` leaves a `<`-free text
unchanged. -/
lemma replaceAll_clean (pat rep ps : List Char) (hp : pat = '<' :: ps)
    (X : List Char) (hX : ∀ c ∈ X, c ≠ '<') : replaceAll X pat rep = X := by
  have h := replaceAll_skip pat rep ps hp X [] hX
  rwa [List.append_nil, replaceAll_nil, List.append_nil] at h

/-- `replaceAll` walks over a non-matching marker `'<' :: mt` whose tail is
`<`-free and continues after it. -/
lemma replaceAll_pass (pat rep ps : List Char) (hp : pat = '<' :: ps)
    (mt rest : List Char) (hmt : ∀ c ∈ mt, c ≠ '<')
    (hns : startsWithCh pat ('<' :: (mt ++ rest)) = false) :
    replaceAll (('<' :: mt) ++ rest) pat rep
      = ('<' :: mt) ++ replaceAll rest pat rep := by
  have hpat : pat ≠ [] := by rw [hp]; exact List.cons_ne_nil _ _
  rw [List.cons_append, replaceAll_cons pat rep hpat]
  simp only [hns, Bool.false_eq_true, if_false]
  rw [replaceAll_skip pat rep ps hp mt rest hmt, List.cons_append]

/-- The tables marker decomposed at its leading `<`. -/
lemma tables_shape : TABLES_AUTO = '<' :: "!-- TABLES_AUTO -->".data := by decide

/-- The figures marker decomposed at its leading `<`. -/
lemma figs_shape : FIGS_AUTO = '<' :: "!-- FIGS_AUTO -->".data := by decide

/-- No `<` occurs after the first character of the tables marker. -/
lemma tables_tail_no_lt : ∀ c ∈ "!-- TABLES_AUTO -->".data, c ≠ '<' := by decide

/-- No `<` occurs after the first character of the figures marker. -/
lemma figs_tail_no_lt : ∀ c ∈ "!-- FIGS_AUTO -->".data, c ≠ '<' := by decide

/-- The tables marker never matches at the start of the figures marker:
the two differ at position 5. -/
lemma not_start_tables_figs (rest : List Char) :
    startsWithCh TABLES_AUTO (FIGS_AUTO ++ rest) = false := by
  apply startsWithCh_eq_false_of_take_ne _ _ 6 (by decide)
  rw [List.take_append_of_le_length (by decide)]
  decide

/-- The figures marker never matches at the start of the tables marker. -/
lemma not_start_figs_tables (rest : List Char) :
    startsWithCh FIGS_AUTO (TABLES_AUTO ++ rest) = false := by
  apply startsWithCh_eq_false_of_take_ne _ _ 6 (by decide)
  rw [List.take_append_of_le_length (by decide)]
  decide

/-- Replacing the tables marker walks over an occurrence of the figures
marker. -/
lemma replaceAll_tables_pass_figs (rest tb : List Char) :
    replaceAll (FIGS_AUTO ++ rest) TABLES_AUTO tb
      = FIGS_AUTO ++ replaceAll rest TABLES_AUTO tb := by
  have hns := not_start_tables_figs rest
  rw [figs_shape, List.cons_append] at hns
  rw [figs_shape]
  exact replaceAll_pass TABLES_AUTO tb _ tables_shape _ rest figs_tail_no_lt hns

/-- Replacing the figures marker walks over an occurrence of the tables
marker. -/
lemma replaceAll_figs_pass_tables (rest fg : List Char) :
    replaceAll (TABLES_AUTO ++ rest) FIGS_AUTO fg
      = TABLES_AUTO ++ replaceAll rest FIGS_AUTO fg := by
  have hns := not_start_figs_tables rest
  rw [tables_shape, List.cons_append] at hns
  rw [tables_shape]
  exact replaceAll_pass FIGS_AUTO fg _ figs_shape _ rest tables_tail_no_lt hns

/-- The branch of `update_text` taken when the tables marker occurs in the
document and the figures marker occurs in the once-updated document. -/
lemma update_text_true_true (text tb fg : List Char)
    (h1 : containsSub text TABLES_AUTO = true)
    (h2 : containsSub (replaceAll text TABLES_AUTO tb) FIGS_AUTO = true) :
    update_text text tb fg
      = replaceAll (replaceAll text TABLES_AUTO tb) FIGS_AUTO fg := by
  unfold update_text
  simp [h1, h2]

/-- C2 fails as stated: this document contains both markers (the tables
marker twice), and `update_text` — Python `str.replace` — substitutes every
occurrence, so the result differs from one substitution per token in either
substitution order. -/
theorem update_text_not_exactly_once :
    (containsSub "<!-- TABLES_AUTO --><!-- TABLES_AUTO --><!-- FIGS_AUTO -->".data
        TABLES_AUTO = true ∧
     containsSub "<!-- TABLES_AUTO --><!-- TABLES_AUTO --><!-- FIGS_AUTO -->".data
        FIGS_AUTO = true) ∧
    update_text "<!-- TABLES_AUTO --><!-- TABLES_AUTO --><!-- FIGS_AUTO -->".data
        "x".data "y".data
      ≠ replaceOnce
          (replaceOnce "<!-- TABLES_AUTO --><!-- TABLES_AUTO --><!-- FIGS_AUTO -->".data
            TABLES_AUTO "x".data)
          FIGS_AUTO "y".data ∧
    update_text "<!-- TABLES_AUTO --><!-- TABLES_AUTO --><!-- FIGS_AUTO -->".data
        "x".data "y".data
      ≠ replaceOnce
          (replaceOnce "<!-- TABLES_AUTO --><!-- TABLES_AUTO --><!-- FIGS_AUTO -->".data
            FIGS_AUTO "y".data)
          TABLES_AUTO "x".data := by
  decide

/-- C2 (amended): the update step replaces every occurrence of each token;
in particular, when each token occurs exactly once — the document splits as
`A ++ token ++ B ++ token' ++ C` with no `<` in `A`, `B`, `C` or in the
substituted tables block — each token is replaced exactly once, regardless
of the order in which the two tokens appear in the document. -/
theorem update_text_both_once (A B C tb fg : List Char)
    (hA : ∀ c ∈ A, c ≠ '<') (hB : ∀ c ∈ B, c ≠ '<') (hC : ∀ c ∈ C, c ≠ '<')
    (htb : ∀ c ∈ tb, c ≠ '<') :
    update_text (A ++ (TABLES_AUTO ++ (B ++ (FIGS_AUTO ++ C)))) tb fg
      = A ++ (tb ++ (B ++ (fg ++ C))) ∧
    update_text (A ++ (FIGS_AUTO ++ (B ++ (TABLES_AUTO ++ C)))) tb fg
      = A ++ (fg ++ (B ++ (tb ++ C))) := by
  have hTne : TABLES_AUTO ≠ [] := by decide
  have hFne : FIGS_AUTO ≠ [] := by decide
  constructor
  · have hcT : containsSub (A ++ (TABLES_AUTO ++ (B ++ (FIGS_AUTO ++ C))))
        TABLES_AUTO = true :=
      containsSub_append_right A _ _
        (containsSub_at TABLES_AUTO (B ++ (FIGS_AUTO ++ C)))
    have h1 : replaceAll (A ++ (TABLES_AUTO ++ (B ++ (FIGS_AUTO ++ C))))
        TABLES_AUTO tb = A ++ (tb ++ (B ++ (FIGS_AUTO ++ C))) := by
      rw [replaceAll_skip TABLES_AUTO tb _ tables_shape A _ hA,
          replaceAll_consume TABLES_AUTO tb _ hTne,
          replaceAll_skip TABLES_AUTO tb _ tables_shape B _ hB,
          replaceAll_tables_pass_figs C tb,
          replaceAll_clean TABLES_AUTO tb _ tables_shape C hC]
    have hcF : containsSub (A ++ (tb ++ (B ++ (FIGS_AUTO ++ C))))
        FIGS_AUTO = true :=
      containsSub_append_right A _ _
        (containsSub_append_right tb _ _
          (containsSub_append_right B _ _ (containsSub_at FIGS_AUTO C)))
    have h2 : replaceAll (A ++ (tb ++ (B ++ (FIGS_AUTO ++ C)))) FIGS_AUTO fg
        = A ++ (tb ++ (B ++ (fg ++ C))) := by
      rw [replaceAll_skip FIGS_AUTO fg _ figs_shape A _ hA,
          replaceAll_skip FIGS_AUTO fg _ figs_shape tb _ htb,
          replaceAll_skip FIGS_AUTO fg _ figs_shape B _ hB,
          replaceAll_consume FIGS_AUTO fg _ hFne,
          replaceAll_clean FIGS_AUTO fg _ figs_shape C hC]
    rw [update_text_true_true _ _ _ hcT (by rw [h1]; exact hcF), h1, h2]
  · have hcT : containsSub (A ++ (FIGS_AUTO ++ (B ++ (TABLES_AUTO ++ C))))
        TABLES_AUTO = true :=
      containsSub_append_right A _ _
        (containsSub_append_right FIGS_AUTO _ _
          (containsSub_append_right B _ _ (containsSub_at TABLES_AUTO C)))
    have h1 : replaceAll (A ++ (FIGS_AUTO ++ (B ++ (TABLES_AUTO ++ C))))
        TABLES_AUTO tb = A ++ (FIGS_AUTO ++ (B ++ (tb ++ C))) := by
      rw [replaceAll_skip TABLES_AUTO tb _ tables_shape A _ hA,
          replaceAll_tables_pass_figs _ tb,
          replaceAll_skip TABLES_AUTO tb _ tables_shape B _ hB,
          replaceAll_consume TABLES_AUTO tb _ hTne,
          replaceAll_clean TABLES_AUTO tb _ tables_shape C hC]
    have hcF : containsSub (A ++ (FIGS_AUTO ++ (B ++ (tb ++ C))))
        FIGS_AUTO = true :=
      containsSub_append_right A _ _
        (containsSub_at FIGS_AUTO (B ++ (tb ++ C)))
    have h2 : replaceAll (A ++ (FIGS_AUTO ++ (B ++ (tb ++ C)))) FIGS_AUTO fg
        = A ++ (fg ++ (B ++ (tb ++ C))) := by
      rw [replaceAll_skip FIGS_AUTO fg _ figs_shape A _ hA,
          replaceAll_consume FIGS_AUTO fg _ hFne,
          replaceAll_skip FIGS_AUTO fg _ figs_shape B _ hB,
          replaceAll_skip FIGS_AUTO fg _ figs_shape tb _ htb,
          replaceAll_clean FIGS_AUTO fg _ figs_shape C hC]
    rw [update_text_true_true _ _ _ hcT (by rw [h1]; exact hcF), h1, h2]

/-- Witness for the amended C2: a concrete document with one occurrence of
each marker, in document order tables-then-figures. -/
theorem update_text_both_once_w :
    update_text ("intro ".data ++ (TABLES_AUTO ++ (" mid ".data
        ++ (FIGS_AUTO ++ " end".data)))) "TB".data "FG".data
      = "intro ".data ++ ("TB".data ++ (" mid ".data ++ ("FG".data ++ " end".data))) :=
  (update_text_both_once "intro ".data " mid ".data " end".data "TB".data "FG".data
    (by decide) (by decide) (by decide) (by decide)).1

end DataCodeSection

example : DataCodeSection.update_text "a<!-- TABLES_AUTO -->b".data "X".data "Y".data = "aXb".data := by decide

example : DataCodeSection.update_text "a<!-- FIGS_AUTO -->b<!-- TABLES_AUTO -->".data "X".data "Y".data = "aYbX".data := by decide

example : DataCodeSection.describe_table ⟨"T_ED2_TDA_x.tsv".data, "p", "q"⟩ = "Topological Data Analysis persistence summaries (Extended Data 2)." := by decide

namespace ZenodoUpload

/-- Unfolding of the download loop on a successfully downloading head. -/
lemma runDownloads_cons_ok (a : Asset) (rest : List Asset) (i : Nat)
    (h : a.dlOk = true) :
    runDownloads (a :: rest) i
      = (⟨NetCall.assetDownload i, a.browser_download_url⟩
           :: (runDownloads rest (i + 1)).1,
         (runDownloads rest (i + 1)).2.1,
         a.name :: (runDownloads rest (i + 1)).2.2) := by
  simp [runDownloads, h]

/-- Unfolding of the download loop on a head whose download fails. -/
lemma runDownloads_cons_bad (a : Asset) (rest : List Asset) (i : Nat)
    (h : a.dlOk = false) :
    runDownloads (a :: rest) i
      = ([⟨NetCall.assetDownload i, a.browser_download_url⟩], false, []) := by
  simp [runDownloads, h]

/-- Each request of the download loop is an asset download, indexed from
the start index; when the loop completed, that asset's download
succeeded. -/
lemma runDownloads_mem : ∀ (l : List Asset) (i : Nat),
    ∀ cu ∈ (runDownloads l i).1,
    ∃ j a, l.get? j = some a ∧ cu.kind = NetCall.assetDownload (i + j) ∧
      ((runDownloads l i).2.1 = true → a.dlOk = true) := by
  intro l
  induction l with
  | nil => intro i cu hcu; simp [runDownloads] at hcu
  | cons a rest ih =>
    intro i cu hcu
    by_cases hok : a.dlOk = true
    · rw [runDownloads_cons_ok a rest i hok] at hcu
      rcases List.mem_cons.mp hcu with hceq | hmem
      · exact ⟨0, a, rfl, by rw [hceq]; simp, fun _ => hok⟩
      · obtain ⟨j, b, hget, hkind, hsucc⟩ := ih (i + 1) cu hmem
        refine ⟨j + 1, b, hget, ?_, ?_⟩
        · rw [hkind]; congr 1; omega
        · intro hall
          rw [runDownloads_cons_ok a rest i hok] at hall
          exact hsucc hall
    · have hbad : a.dlOk = false := by
        cases hv : a.dlOk with
        | false => rfl
        | true => exact absurd hv hok
      rw [runDownloads_cons_bad a rest i hbad] at hcu
      rcases List.mem_cons.mp hcu with hceq | hmem
      · refine ⟨0, a, rfl, by rw [hceq]; simp, fun hall => ?_⟩
        rw [runDownloads_cons_bad a rest i hbad] at hall
        exact absurd hall (by simp)
      · exact absurd hmem (List.not_mem_nil cu)

/-- The download loop completes exactly when every asset downloads. -/
lemma runDownloads_ok_iff : ∀ (l : List Asset) (i : Nat),
    (runDownloads l i).2.1 = true ↔ ∀ a ∈ l, a.dlOk = true := by
  intro l
  induction l with
  | nil => intro i; simp [runDownloads]
  | cons a rest ih =>
    intro i
    by_cases hok : a.dlOk = true
    · rw [runDownloads_cons_ok a rest i hok]
      constructor
      · intro h b hb
        rcases List.mem_cons.mp hb with hba | hbr
        · rw [hba]; exact hok
        · exact ((ih (i + 1)).mp h) b hbr
      · intro h
        exact (ih (i + 1)).mpr fun b hb => h b (List.mem_cons_of_mem _ hb)
    · have hbad : a.dlOk = false := by
        cases hv : a.dlOk with
        | false => rfl
        | true => exact absurd hv hok
      rw [runDownloads_cons_bad a rest i hbad]
      constructor
      · intro h; exact absurd h (by simp)
      · intro h; exact absurd (h a (List.mem_cons_self _ _)) hok

/-- When every asset downloads, the collected file names are the asset
names. -/
lemma runDownloads_files : ∀ (l : List Asset) (i : Nat),
    (∀ a ∈ l, a.dlOk = true) →
    (runDownloads l i).2.2 = l.map Asset.name := by
  intro l
  induction l with
  | nil => intro i _; rfl
  | cons a rest ih =>
    intro i h
    rw [runDownloads_cons_ok a rest i (h a (List.mem_cons_self _ _))]
    simp only [List.map_cons]
    rw [ih (i + 1) fun b hb => h b (List.mem_cons_of_mem _ hb)]

/-- Unfolding of the upload loop when the next upload succeeds. -/
lemma runUploads_cons_ok (sb : Bool) (id : Nat) (ok : Nat → Bool) (f : String)
    (rest : List String) (i : Nat) (h : ok i = true) :
    runUploads sb id ok (f :: rest) i
      = (⟨NetCall.uploadFile i,
          base_url sb ++ "/deposit/depositions/" ++ toString id ++ "/files"⟩
           :: (runUploads sb id ok rest (i + 1)).1,
         (runUploads sb id ok rest (i + 1)).2) := by
  simp [runUploads, h]

/-- Unfolding of the upload loop when the next upload fails. -/
lemma runUploads_cons_bad (sb : Bool) (id : Nat) (ok : Nat → Bool) (f : String)
    (rest : List String) (i : Nat) (h : ok i = false) :
    runUploads sb id ok (f :: rest) i
      = ([⟨NetCall.uploadFile i,
           base_url sb ++ "/deposit/depositions/" ++ toString id ++ "/files"⟩],
         false) := by
  simp [runUploads, h]

/-- Each request of the upload loop is an upload at an index at or past the
start, aimed at the deposition files endpoint; every strictly earlier
upload in range succeeded, and when the loop completed this one did too. -/
lemma runUploads_mem (sb : Bool) (id : Nat) (ok : Nat → Bool) :
    ∀ (fs : List String) (i : Nat), ∀ cu ∈ (runUploads sb id ok fs i).1,
    ∃ j, i ≤ j ∧ cu.kind = NetCall.uploadFile j ∧
      cu.url = base_url sb ++ "/deposit/depositions/" ++ toString id ++ "/files" ∧
      (∀ k, i ≤ k → k < j → ok k = true) ∧
      ((runUploads sb id ok fs i).2 = true → ok j = true) := by
  intro fs
  induction fs with
  | nil => intro i cu hcu; simp [runUploads] at hcu
  | cons f rest ih =>
    intro i cu hcu
    by_cases hok : ok i = true
    · rw [runUploads_cons_ok sb id ok f rest i hok] at hcu
      rcases List.mem_cons.mp hcu with hceq | hmem
      · exact ⟨i, Nat.le_refl i, by rw [hceq], by rw [hceq],
               fun k hk1 hk2 => absurd (Nat.lt_of_le_of_lt hk1 hk2)
                 (Nat.lt_irrefl i), fun _ => hok⟩
      · obtain ⟨j, hij, hkind, hurl, hearly, hsucc⟩ := ih (i + 1) cu hmem
        refine ⟨j, Nat.le_trans (Nat.le_succ i) hij, hkind, hurl, ?_, ?_⟩
        · intro k hk1 hk2
          rcases Nat.eq_or_lt_of_le hk1 with hke | hkl
          · rw [← hke]; exact hok
          · exact hearly k hkl hk2
        · intro hall
          rw [runUploads_cons_ok sb id ok f rest i hok] at hall
          exact hsucc hall
    · have hbad : ok i = false := by
        cases hv : ok i with
        | false => rfl
        | true => exact absurd hv hok
      rw [runUploads_cons_bad sb id ok f rest i hbad] at hcu
      rcases List.mem_cons.mp hcu with hceq | hmem
      · refine ⟨i, Nat.le_refl i, by rw [hceq], by rw [hceq],
               fun k hk1 hk2 => absurd (Nat.lt_of_le_of_lt hk1 hk2)
                 (Nat.lt_irrefl i), fun hall => ?_⟩
        rw [runUploads_cons_bad sb id ok f rest i hbad] at hall
        exact absurd hall (by simp)
      · exact absurd hmem (List.not_mem_nil cu)

/-- The tail of `main` on an empty file list. -/
lemma afterFiles_nil (args : Args) (w : World) (cs : List Call) :
    afterFiles args w [] cs = ⟨1, cs, none⟩ := by
  simp [afterFiles]

/-- The tail of `main` when deposition creation fails. -/
lemma afterFiles_create_fail (args : Args) (w : World) (files : List String)
    (cs : List Call) (hf : files ≠ []) (hc : w.createOk = false) :
    afterFiles args w files cs = ⟨1, cs ++ [createCall args], none⟩ := by
  cases files with
  | nil => exact absurd rfl hf
  | cons f rest => simp [afterFiles, hc]

/-- The tail of `main` when deposition creation succeeds. -/
lemma afterFiles_create_ok (args : Args) (w : World) (files : List String)
    (cs : List Call) (hf : files ≠ []) (hc : w.createOk = true) :
    afterFiles args w files cs
      = (match runUploads args.sandbox w.depositionId w.uploadOk files 0 with
         | (ucs, false) => ⟨1, cs ++ createCall args :: ucs, none⟩
         | (ucs, true) =>
           if !w.publishOk then
             ⟨1, cs ++ createCall args :: (ucs ++ [publishCall args w]), none⟩
           else
             ⟨0, cs ++ createCall args :: (ucs ++ [publishCall args w]),
              some ⟨w.depositionId, w.recordId, w.doi,
                    "https://zenodo.org/record/" ++ toString w.recordId,
                    args.tag⟩⟩) := by
  cases files with
  | nil => exact absurd rfl hf
  | cons f rest => simp [afterFiles, hc]

/-- `main` short-circuits when the token is absent. -/
lemma main_token_false (args : Args) (w : World) (h : w.tokenPresent = false) :
    main args w = ⟨1, [], none⟩ := by
  simp [main, h]

/-- `main` short-circuits when the metadata file is absent. -/
lemma main_meta_false (args : Args) (w : World) (h : w.metadataExists = false) :
    main args w = ⟨1, [], none⟩ := by
  cases ht : w.tokenPresent <;> simp [main, ht, h]

/-- `main` returns 1 when the metadata file fails to parse (the exception is
caught by the `except` block). -/
lemma main_parse_false (args : Args) (w : World) (h : w.metadataParses = false) :
    main args w = ⟨1, [], none⟩ := by
  cases ht : w.tokenPresent <;> cases hm : w.metadataExists <;>
    simp [main, ht, hm, h]

/-- `main` past its three guards. -/
lemma main_checks (args : Args) (w : World) (h1 : w.tokenPresent = true)
    (h2 : w.metadataExists = true) (h3 : w.metadataParses = true) :
    main args w = (match downloadPhase args w with
      | (none, cs) => ⟨1, cs, none⟩
      | (some files, cs) => afterFiles args w files cs) := by
  simp [main, h1, h2, h3]

/-- The download phase under `--skip-download`. -/
lemma downloadPhase_skip (args : Args) (w : World)
    (h : args.skip_download = true) :
    downloadPhase args w = (some w.stagedFiles, []) := by
  simp [downloadPhase, h]

/-- The download phase when the release lookup fails. -/
lemma downloadPhase_lookup_fail (args : Args) (w : World)
    (h : args.skip_download = false) (hr : w.releaseOk = false) :
    downloadPhase args w = (none, [ghCall args]) := by
  simp [downloadPhase, h, hr]

/-- The download phase when the release lookup succeeds. -/
lemma downloadPhase_lookup_ok (args : Args) (w : World)
    (h : args.skip_download = false) (hr : w.releaseOk = true) :
    downloadPhase args w
      = (if (runDownloads w.assets 0).2.1 then some (runDownloads w.assets 0).2.2
         else none,
         ghCall args :: (runDownloads w.assets 0).1) := by
  simp [downloadPhase, h, hr]

/-- Every request of the download phase is the release lookup or an asset
download. -/
lemma downloadPhase_calls_kinds (args : Args) (w : World) :
    ∀ cu ∈ (downloadPhase args w).2,
      cu.kind = NetCall.releaseLookup ∨ ∃ j, cu.kind = NetCall.assetDownload j := by
  intro cu hcu
  cases hs : args.skip_download with
  | true => rw [downloadPhase_skip args w hs] at hcu; simp at hcu
  | false =>
    cases hr : w.releaseOk with
    | false =>
      rw [downloadPhase_lookup_fail args w hs hr] at hcu
      rcases List.mem_singleton.mp hcu with rfl
      exact Or.inl rfl
    | true =>
      rw [downloadPhase_lookup_ok args w hs hr] at hcu
      rcases List.mem_cons.mp hcu with rfl | hmem
      · exact Or.inl rfl
      · obtain ⟨j, a, _, hkind, _⟩ := runDownloads_mem w.assets 0 cu hmem
        exact Or.inr ⟨0 + j, hkind⟩

/-- Characterisation of a download phase that produced a file list. -/
lemma downloadPhase_some (args : Args) (w : World) (files : List String)
    (cs : List Call) (h : downloadPhase args w = (some files, cs)) :
    (args.skip_download = true ∧ files = w.stagedFiles ∧ cs = []) ∨
    (args.skip_download = false ∧ w.releaseOk = true ∧
     (runDownloads w.assets 0).2.1 = true ∧
     files = (runDownloads w.assets 0).2.2 ∧
     cs = ghCall args :: (runDownloads w.assets 0).1) := by
  cases hs : args.skip_download with
  | true =>
    rw [downloadPhase_skip args w hs] at h
    obtain ⟨h1, h2⟩ := Prod.mk.injEq .. ▸ h
    exact Or.inl ⟨rfl, (Option.some.injEq .. ▸ h1).symm, h2.symm⟩
  | false =>
    cases hr : w.releaseOk with
    | false =>
      rw [downloadPhase_lookup_fail args w hs hr] at h
      obtain ⟨h1, _⟩ := Prod.mk.injEq .. ▸ h
      exact absurd h1 (by simp)
    | true =>
      rw [downloadPhase_lookup_ok args w hs hr] at h
      cases hok : (runDownloads w.assets 0).2.1 with
      | false =>
        rw [hok] at h
        obtain ⟨h1, _⟩ := Prod.mk.injEq .. ▸ h
        exact absurd h1 (by simp)
      | true =>
        rw [hok] at h
        obtain ⟨h1, h2⟩ := Prod.mk.injEq .. ▸ h
        exact Or.inr ⟨rfl, rfl, rfl, (Option.some.injEq .. ▸ h1).symm, h2.symm⟩

/-- Exhaustive description of the outcomes of `main`: each disjunct names
the branch taken, the trace issued, and the result returned. -/
lemma main_shape (args : Args) (w : World) :
    (main args w = ⟨1, [], none⟩) ∨
    (∃ cs, downloadPhase args w = (none, cs) ∧ main args w = ⟨1, cs, none⟩) ∨
    (∃ cs, downloadPhase args w = (some [], cs) ∧ main args w = ⟨1, cs, none⟩) ∨
    (∃ files cs, downloadPhase args w = (some files, cs) ∧ files ≠ [] ∧
       w.createOk = false ∧ main args w = ⟨1, cs ++ [createCall args], none⟩) ∨
    (∃ files cs ucs, downloadPhase args w = (some files, cs) ∧ files ≠ [] ∧
       w.createOk = true ∧
       runUploads args.sandbox w.depositionId w.uploadOk files 0 = (ucs, false) ∧
       main args w = ⟨1, cs ++ createCall args :: ucs, none⟩) ∨
    (∃ files cs ucs, downloadPhase args w = (some files, cs) ∧ files ≠ [] ∧
       w.createOk = true ∧
       runUploads args.sandbox w.depositionId w.uploadOk files 0 = (ucs, true) ∧
       ((w.publishOk = false ∧
         main args w
           = ⟨1, cs ++ createCall args :: (ucs ++ [publishCall args w]), none⟩) ∨
        (w.publishOk = true ∧
         main args w
           = ⟨0, cs ++ createCall args :: (ucs ++ [publishCall args w]),
              some ⟨w.depositionId, w.recordId, w.doi,
                    "https://zenodo.org/record/" ++ toString w.recordId,
                    args.tag⟩⟩))) := by
  cases ht : w.tokenPresent with
  | false => exact Or.inl (main_token_false args w ht)
  | true =>
  cases hm : w.metadataExists with
  | false => exact Or.inl (main_meta_false args w hm)
  | true =>
  cases hp : w.metadataParses with
  | false => exact Or.inl (main_parse_false args w hp)
  | true =>
  have hmain := main_checks args w ht hm hp
  have hdp : downloadPhase args w
      = ((downloadPhase args w).1, (downloadPhase args w).2) := by
    exact (Prod.mk.eta).symm
  rw [hdp] at hmain
  cases ho : (downloadPhase args w).1 with
  | none =>
    rw [ho] at hmain hdp
    have hm2 : main args w = ⟨1, (downloadPhase args w).2, none⟩ := hmain
    exact Or.inr (Or.inl ⟨(downloadPhase args w).2, hdp, hm2⟩)
  | some files =>
    rw [ho] at hmain hdp
    have hm2 : main args w
        = afterFiles args w files (downloadPhase args w).2 := hmain
    cases files with
    | nil =>
      rw [afterFiles_nil] at hm2
      exact Or.inr (Or.inr (Or.inl ⟨(downloadPhase args w).2, hdp, hm2⟩))
    | cons f rest =>
      have hne : f :: rest ≠ ([] : List String) := List.cons_ne_nil f rest
      cases hc : w.createOk with
      | false =>
        rw [afterFiles_create_fail args w (f :: rest) _ hne hc] at hm2
        exact Or.inr (Or.inr (Or.inr (Or.inl
          ⟨f :: rest, (downloadPhase args w).2, hdp, hne, rfl, hm2⟩)))
      | true =>
        rw [afterFiles_create_ok args w (f :: rest) _ hne hc] at hm2
        have hru : runUploads args.sandbox w.depositionId w.uploadOk (f :: rest) 0
            = ((runUploads args.sandbox w.depositionId w.uploadOk (f :: rest) 0).1,
               (runUploads args.sandbox w.depositionId w.uploadOk (f :: rest) 0).2) := by
          exact (Prod.mk.eta).symm
        rw [hru] at hm2
        cases hb : (runUploads args.sandbox w.depositionId w.uploadOk (f :: rest) 0).2 with
        | false =>
          rw [hb] at hm2 hru
          have hm3 : main args w
              = ⟨1, (downloadPhase args w).2 ++ createCall args
                  :: (runUploads args.sandbox w.depositionId w.uploadOk (f :: rest) 0).1,
                 none⟩ := hm2
          exact Or.inr (Or.inr (Or.inr (Or.inr (Or.inl
            ⟨f :: rest, (downloadPhase args w).2,
             (runUploads args.sandbox w.depositionId w.uploadOk (f :: rest) 0).1,
             hdp, hne, rfl, hru, hm3⟩))))
        | true =>
          rw [hb] at hm2 hru
          cases hpub : w.publishOk with
          | false =>
            rw [hpub] at hm2
            have hm3 : main args w
                = ⟨1, (downloadPhase args w).2 ++ createCall args
                    :: ((runUploads args.sandbox w.depositionId w.uploadOk (f :: rest) 0).1
                        ++ [publishCall args w]), none⟩ := hm2
            exact Or.inr (Or.inr (Or.inr (Or.inr (Or.inr
              ⟨f :: rest, (downloadPhase args w).2,
               (runUploads args.sandbox w.depositionId w.uploadOk (f :: rest) 0).1,
               hdp, hne, rfl, hru, Or.inl ⟨rfl, hm3⟩⟩))))
          | true =>
            rw [hpub] at hm2
            have hm3 : main args w
                = ⟨0, (downloadPhase args w).2 ++ createCall args
                    :: ((runUploads args.sandbox w.depositionId w.uploadOk (f :: rest) 0).1
                        ++ [publishCall args w]),
                   some ⟨w.depositionId, w.recordId, w.doi,
                         "https://zenodo.org/record/" ++ toString w.recordId,
                         args.tag⟩⟩ := hm2
            exact Or.inr (Or.inr (Or.inr (Or.inr (Or.inr
              ⟨f :: rest, (downloadPhase args w).2,
               (runUploads args.sandbox w.depositionId w.uploadOk (f :: rest) 0).1,
               hdp, hne, rfl, hru, Or.inr ⟨rfl, hm3⟩⟩))))

/-- With every upload succeeding, the upload loop completes. -/
lemma runUploads_all_ok (sb : Bool) (id : Nat) (ok : Nat → Bool)
    (h : ∀ k, ok k = true) : ∀ (fs : List String) (i : Nat),
    (runUploads sb id ok fs i).2 = true := by
  intro fs
  induction fs with
  | nil => intro i; rfl
  | cons f rest ih =>
    intro i
    rw [runUploads_cons_ok sb id ok f rest i (h i)]
    exact ih (i + 1)

/-- C5: when the `ZENODO_TOKEN` environment variable is unset, the process
exits with status 1 and performs no network call of any kind before
exiting. -/
theorem no_token_no_calls (args : Args) (w : World)
    (h : w.tokenPresent = false) :
    (main args w).exitCode = 1 ∧ (main args w).calls = [] := by
  rw [main_token_false args w h]
  exact ⟨rfl, rfl⟩

/-- Witness for C5 at a concrete tokenless world. -/
theorem no_token_no_calls_w :
    (main argsDl wNoToken).exitCode = 1 ∧ (main argsDl wNoToken).calls = [] :=
  no_token_no_calls argsDl wNoToken rfl

/-- C4: the publisher exits 0 exactly when the whole pipeline succeeds (the
summary record is then written), and exits 1 when the token variable is
missing, the metadata file is absent, the metadata fails to parse (an
unhandled exception inside the `try` block), or there are no files to
upload; the exit status is always 0 or 1. -/
theorem exit_codes (args : Args) (w : World) :
    ((main args w).exitCode = 0 ∨ (main args w).exitCode = 1) ∧
    ((main args w).exitCode = 0 ↔ (main args w).summary.isSome = true) ∧
    (w.tokenPresent = false → (main args w).exitCode = 1) ∧
    (w.metadataExists = false → (main args w).exitCode = 1) ∧
    (w.metadataParses = false → (main args w).exitCode = 1) ∧
    (args.skip_download = true → w.stagedFiles = [] →
      (main args w).exitCode = 1) ∧
    (w.tokenPresent = true → w.metadataExists = true → w.metadataParses = true →
      args.skip_download = true → w.stagedFiles ≠ [] → w.createOk = true →
      (∀ k, w.uploadOk k = true) → w.publishOk = true →
      (main args w).exitCode = 0) ∧
    (w.tokenPresent = true → w.metadataExists = true → w.metadataParses = true →
      args.skip_download = false → w.releaseOk = true →
      (∀ a ∈ w.assets, a.dlOk = true) → w.assets ≠ [] → w.createOk = true →
      (∀ k, w.uploadOk k = true) → w.publishOk = true →
      (main args w).exitCode = 0) := by
  refine ⟨?_, ?_, ?_, ?_, ?_, ?_, ?_, ?_⟩
  · rcases main_shape args w with h | ⟨cs, _, h⟩ | ⟨cs, _, h⟩ |
      ⟨f2, c2, _, _, _, h⟩ | ⟨f2, c2, u2, _, _, _, _, h⟩ |
      ⟨f2, c2, u2, _, _, _, _, ⟨_, h⟩ | ⟨_, h⟩⟩ <;> rw [h] <;> simp
  · rcases main_shape args w with h | ⟨cs, _, h⟩ | ⟨cs, _, h⟩ |
      ⟨f2, c2, _, _, _, h⟩ | ⟨f2, c2, u2, _, _, _, _, h⟩ |
      ⟨f2, c2, u2, _, _, _, _, ⟨_, h⟩ | ⟨_, h⟩⟩ <;> rw [h] <;> simp
  · intro h
    rw [main_token_false args w h]
  · intro h
    rw [main_meta_false args w h]
  · intro h
    rw [main_parse_false args w h]
  · intro hs hst
    cases ht : w.tokenPresent with
    | false => rw [main_token_false args w ht]
    | true =>
    cases hm : w.metadataExists with
    | false => rw [main_meta_false args w hm]
    | true =>
    cases hp : w.metadataParses with
    | false => rw [main_parse_false args w hp]
    | true =>
      have h := main_checks args w ht hm hp
      rw [downloadPhase_skip args w hs, hst] at h
      have h2 : main args w = afterFiles args w [] [] := h
      rw [afterFiles_nil] at h2
      rw [h2]
  · intro ht hm hp hs hne hc hup hpub
    have h := main_checks args w ht hm hp
    rw [downloadPhase_skip args w hs] at h
    have h2 : main args w = afterFiles args w w.stagedFiles [] := h
    rw [afterFiles_create_ok args w _ _ hne hc] at h2
    have hru : runUploads args.sandbox w.depositionId w.uploadOk w.stagedFiles 0
        = ((runUploads args.sandbox w.depositionId w.uploadOk w.stagedFiles 0).1,
           (runUploads args.sandbox w.depositionId w.uploadOk w.stagedFiles 0).2) :=
      (Prod.mk.eta).symm
    rw [hru,
        runUploads_all_ok args.sandbox w.depositionId w.uploadOk hup
          w.stagedFiles 0, hpub] at h2
    rw [h2]
    rfl
  · intro ht hm hp hs hr hdl hane hc hup hpub
    have h := main_checks args w ht hm hp
    rw [downloadPhase_lookup_ok args w hs hr,
        (runDownloads_ok_iff w.assets 0).mpr hdl] at h
    have h2 : main args w
        = afterFiles args w (runDownloads w.assets 0).2.2
            (ghCall args :: (runDownloads w.assets 0).1) := h
    have hfne : (runDownloads w.assets 0).2.2 ≠ [] := by
      rw [runDownloads_files w.assets 0 hdl]
      intro hnil
      exact hane (List.map_eq_nil_iff.mp hnil)
    rw [afterFiles_create_ok args w _ _ hfne hc] at h2
    have hru : runUploads args.sandbox w.depositionId w.uploadOk
          (runDownloads w.assets 0).2.2 0
        = ((runUploads args.sandbox w.depositionId w.uploadOk
              (runDownloads w.assets 0).2.2 0).1,
           (runUploads args.sandbox w.depositionId w.uploadOk
              (runDownloads w.assets 0).2.2 0).2) :=
      (Prod.mk.eta).symm
    rw [hru,
        runUploads_all_ok args.sandbox w.depositionId w.uploadOk hup
          (runDownloads w.assets 0).2.2 0, hpub] at h2
    rw [h2]
    rfl

/-- Witness for C4: the all-success world exits 0; the tokenless world
exits 1. -/
theorem exit_codes_w :
    (main argsSkip wAllOk).exitCode = 0 ∧ (main argsDl wNoToken).exitCode = 1 :=
  ⟨(exit_codes argsSkip wAllOk).2.2.2.2.2.2.1 rfl rfl rfl rfl (by decide) rfl
     (fun _ => rfl) rfl,
   (exit_codes argsDl wNoToken).2.2.1 rfl⟩

/-- No request of the download phase is a deposition-mutating request. -/
lemma cs_no_special (args : Args) (w : World) (cs : List Call)
    (o : Option (List String)) (hdp : downloadPhase args w = (o, cs)) :
    ∀ x ∈ cs, x.kind ≠ NetCall.createDep ∧ x.kind ≠ NetCall.publish ∧
      ∀ j, x.kind ≠ NetCall.uploadFile j := by
  intro x hx
  have hkinds := downloadPhase_calls_kinds args w
  rw [hdp] at hkinds
  have h2 : x.kind = NetCall.releaseLookup ∨
      ∃ j, x.kind = NetCall.assetDownload j := hkinds x hx
  rcases h2 with h3 | ⟨j, h3⟩ <;> rw [h3] <;>
    exact ⟨by simp, by simp, by simp⟩

/-- Description of the requests of an upload-loop trace, keyed by the loop
outcome recorded in `hu`. -/
lemma ucs_kinds (args : Args) (w : World) (files : List String)
    (ucs : List Call) (b : Bool)
    (hu : runUploads args.sandbox w.depositionId w.uploadOk files 0 = (ucs, b)) :
    ∀ x ∈ ucs, ∃ j, x.kind = NetCall.uploadFile j ∧
      x.url = base_url args.sandbox ++ "/deposit/depositions/"
        ++ toString w.depositionId ++ "/files" ∧
      (∀ k, k < j → w.uploadOk k = true) ∧
      (b = true → w.uploadOk j = true) := by
  intro x hx
  have hm := runUploads_mem args.sandbox w.depositionId w.uploadOk files 0
  rw [hu] at hm
  have hm2 : ∀ y ∈ ucs, ∃ j, 0 ≤ j ∧ y.kind = NetCall.uploadFile j ∧
      y.url = base_url args.sandbox ++ "/deposit/depositions/"
        ++ toString w.depositionId ++ "/files" ∧
      (∀ k, 0 ≤ k → k < j → w.uploadOk k = true) ∧
      (b = true → w.uploadOk j = true) := hm
  obtain ⟨j, _, hkind, hurl, hearly, hsucc⟩ := hm2 x hx
  exact ⟨j, hkind, hurl, fun k hk => hearly k (Nat.zero_le k) hk, hsucc⟩

/-- Membership in a publishing-shaped trace splits into its four parts. -/
lemma mem_four (cs ucs : List Call) (c p cu : Call)
    (hmem : cu ∈ cs ++ c :: (ucs ++ [p])) :
    cu ∈ cs ∨ cu = c ∨ cu ∈ ucs ∨ cu = p := by
  rcases List.mem_append.mp hmem with h1 | h1
  · exact Or.inl h1
  rcases List.mem_cons.mp h1 with h2 | h2
  · exact Or.inr (Or.inl h2)
  rcases List.mem_append.mp h2 with h3 | h3
  · exact Or.inr (Or.inr (Or.inl h3))
  · exact Or.inr (Or.inr (Or.inr (List.mem_singleton.mp h3)))

/-- The last element of a publishing-shaped trace is the publish request. -/
lemma getLast_concat_shape (cs ucs : List Call) (c p : Call) :
    (cs ++ c :: (ucs ++ [p])).getLast? = some p := by
  rw [show cs ++ c :: (ucs ++ [p]) = (cs ++ c :: ucs) ++ [p] by simp]
  exact List.getLast?_concat _

/-- C8: once the publish request has been performed on the deposition, the
tool issues no further remote request: a trace element of publish kind is
always the last element of the trace (every later action — printing and
writing the local summary file — is local). -/
theorem publish_is_last (args : Args) (w : World) :
    ∀ cu ∈ (main args w).calls, cu.kind = NetCall.publish →
      (main args w).calls.getLast? = some cu := by
  intro cu hmem hk
  rcases main_shape args w with h | ⟨cs, hdp, h⟩ | ⟨cs, hdp, h⟩ |
    ⟨files, cs, hdp, hne, hc, h⟩ | ⟨files, cs, ucs, hdp, hne, hc, hu, h⟩ |
    ⟨files, cs, ucs, hdp, hne, hc, hu, hor⟩
  · have hmem2 : cu ∈ ([] : List Call) := by rw [h] at hmem; exact hmem
    exact absurd hmem2 (List.not_mem_nil cu)
  · have hmem2 : cu ∈ cs := by rw [h] at hmem; exact hmem
    exact absurd hk (cs_no_special args w cs none hdp cu hmem2).2.1
  · have hmem2 : cu ∈ cs := by rw [h] at hmem; exact hmem
    exact absurd hk (cs_no_special args w cs (some []) hdp cu hmem2).2.1
  · have hmem2 : cu ∈ cs ++ [createCall args] := by rw [h] at hmem; exact hmem
    rcases List.mem_append.mp hmem2 with h1 | h1
    · exact absurd hk (cs_no_special args w cs (some files) hdp cu h1).2.1
    · have hce : cu = createCall args := List.mem_singleton.mp h1
      rw [hce] at hk
      exact absurd hk (by simp [createCall])
  · have hmem2 : cu ∈ cs ++ createCall args :: ucs := by
      rw [h] at hmem; exact hmem
    rcases List.mem_append.mp hmem2 with h1 | h1
    · exact absurd hk (cs_no_special args w cs (some files) hdp cu h1).2.1
    rcases List.mem_cons.mp h1 with h2 | h2
    · rw [h2] at hk
      exact absurd hk (by simp [createCall])
    · obtain ⟨j, hkind, -, -, -⟩ := ucs_kinds args w files ucs false hu cu h2
      rw [hk] at hkind
      exact absurd hkind (by simp)
  · have hL : (main args w).calls
        = cs ++ createCall args :: (ucs ++ [publishCall args w]) := by
      rcases hor with ⟨-, h⟩ | ⟨-, h⟩ <;> rw [h]
    have hmem2 : cu ∈ cs ++ createCall args :: (ucs ++ [publishCall args w]) := by
      rw [hL] at hmem; exact hmem
    rw [hL, getLast_concat_shape]
    rcases mem_four cs ucs (createCall args) (publishCall args w) cu hmem2 with
      h1 | h1 | h1 | h1
    · exact absurd hk (cs_no_special args w cs (some files) hdp cu h1).2.1
    · rw [h1] at hk
      exact absurd hk (by simp [createCall])
    · obtain ⟨j, hkind, -, -, -⟩ := ucs_kinds args w files ucs true hu cu h1
      rw [hk] at hkind
      exact absurd hkind (by simp)
    · rw [h1]

/-- Witness for C8: the successful concrete run ends with its publish
request. -/
theorem publish_is_last_w :
    (main argsSkip wAllOk).calls.getLast?
      = some (publishCall argsSkip wAllOk) :=
  publish_is_last argsSkip wAllOk (publishCall argsSkip wAllOk) (by decide) rfl

/-- C10: the `url` of the persisted summary is built from the production
host (`https://zenodo.org/record/...`) regardless of the sandbox toggle,
while every deposition request of the run is addressed under
`base_url args.sandbox` — in a sandbox run the sandbox base, which differs
from the production base. -/
theorem record_url_production (args : Args) (w : World) (s : Summary)
    (h : (main args w).summary = some s) :
    s.url = "https://zenodo.org/record/" ++ toString w.recordId ∧
    (∀ cu ∈ (main args w).calls,
       (cu.kind = NetCall.createDep ∨ (∃ j, cu.kind = NetCall.uploadFile j) ∨
        cu.kind = NetCall.publish) →
       ∃ t, cu.url = base_url args.sandbox ++ t) ∧
    base_url true = ZENODO_SANDBOX ∧ ZENODO_SANDBOX ≠ ZENODO_PROD := by
  rcases main_shape args w with hm | ⟨cs, hdp, hm⟩ | ⟨cs, hdp, hm⟩ |
    ⟨files, cs, hdp, hne, hc, hm⟩ | ⟨files, cs, ucs, hdp, hne, hc, hu, hm⟩ |
    ⟨files, cs, ucs, hdp, hne, hc, hu, hor⟩
  · rw [hm] at h; exact absurd h (by simp)
  · rw [hm] at h; exact absurd h (by simp)
  · rw [hm] at h; exact absurd h (by simp)
  · rw [hm] at h; exact absurd h (by simp)
  · rw [hm] at h; exact absurd h (by simp)
  rcases hor with ⟨-, hm⟩ | ⟨hpub, hm⟩
  · rw [hm] at h; exact absurd h (by simp)
  · have hs : some (⟨w.depositionId, w.recordId, w.doi,
        "https://zenodo.org/record/" ++ toString w.recordId,
        args.tag⟩ : Summary) = some s := by rw [hm] at h; exact h
    have hs2 := Option.some.inj hs
    refine ⟨by rw [← hs2], ?_, rfl, by decide⟩
    intro cu hmem hzen
    have hmem2 : cu ∈ cs ++ createCall args :: (ucs ++ [publishCall args w]) := by
      rw [hm] at hmem; exact hmem
    rcases mem_four cs ucs (createCall args) (publishCall args w) cu hmem2 with
      h1 | h1 | h1 | h1
    · have hno := cs_no_special args w cs (some files) hdp cu h1
      rcases hzen with hz | ⟨j, hz⟩ | hz
      · exact absurd hz hno.1
      · exact absurd hz (hno.2.2 j)
      · exact absurd hz hno.2.1
    · rw [h1]
      exact ⟨"/deposit/depositions", rfl⟩
    · obtain ⟨j, -, hurl, -, -⟩ := ucs_kinds args w files ucs true hu cu h1
      rw [hurl, String.append_assoc, String.append_assoc]
      exact ⟨_, rfl⟩
    · rw [h1]
      show ∃ t, base_url args.sandbox ++ "/deposit/depositions/"
          ++ toString w.depositionId ++ "/actions/publish"
        = base_url args.sandbox ++ t
      rw [String.append_assoc, String.append_assoc]
      exact ⟨_, rfl⟩

/-- Witness for C10: the summary of the successful sandbox run carries the
production-host record URL. -/
theorem record_url_production_w :
    (⟨7, 42, some "10.5281/zenodo.42", "https://zenodo.org/record/42",
      "v1.0.0"⟩ : Summary).url
      = "https://zenodo.org/record/" ++ toString wAllOk.recordId :=
  (record_url_production argsSkip wAllOk _ (by decide)).1

/-- C3: a non-success remote response aborts the pipeline, so no later
pipeline step executes.  Contrapositively: a deposition-creation request in
the trace implies the download step fully succeeded (in particular a
failing asset download means `create_deposition` is never called); an
upload request implies creation succeeded and every earlier upload
succeeded; a publish request implies every upload in the trace succeeded;
and a run that exits 0 contains no failing request at all. -/
theorem pipeline_abort (args : Args) (w : World) :
    (∀ cu ∈ (main args w).calls, cu.kind = NetCall.createDep →
       args.skip_download = true ∨
       (w.releaseOk = true ∧ ∀ a ∈ w.assets, a.dlOk = true)) ∧
    (∀ cu ∈ (main args w).calls, ∀ j, cu.kind = NetCall.uploadFile j →
       (args.skip_download = true ∨
        (w.releaseOk = true ∧ ∀ a ∈ w.assets, a.dlOk = true)) ∧
       w.createOk = true ∧ ∀ k, k < j → w.uploadOk k = true) ∧
    (∀ cu ∈ (main args w).calls, cu.kind = NetCall.publish →
       (args.skip_download = true ∨
        (w.releaseOk = true ∧ ∀ a ∈ w.assets, a.dlOk = true)) ∧
       w.createOk = true ∧
       (∀ cu' ∈ (main args w).calls, ∀ j, cu'.kind = NetCall.uploadFile j →
         w.uploadOk j = true)) ∧
    (args.skip_download = false → (∃ a ∈ w.assets, a.dlOk = false) →
       ∀ cu ∈ (main args w).calls,
         cu.kind ≠ NetCall.createDep ∧ cu.kind ≠ NetCall.publish) ∧
    ((main args w).exitCode = 0 →
       ∀ cu ∈ (main args w).calls, callFails w cu.kind = false) := by
  have hds : ∀ (files : List String) (cs : List Call),
      downloadPhase args w = (some files, cs) →
      args.skip_download = true ∨
      (w.releaseOk = true ∧ ∀ a ∈ w.assets, a.dlOk = true) := by
    intro files cs hdp
    rcases downloadPhase_some args w files cs hdp with ⟨h1, -, -⟩ | ⟨-, h2, h3, -, -⟩
    · exact Or.inl h1
    · exact Or.inr ⟨h2, (runDownloads_ok_iff w.assets 0).mp h3⟩
  refine ⟨?_, ?_, ?_, ?_, ?_⟩
  · intro cu hmem hk
    rcases main_shape args w with hm | ⟨cs, hdp, hm⟩ | ⟨cs, hdp, hm⟩ |
      ⟨files, cs, hdp, hne, hc, hm⟩ | ⟨files, cs, ucs, hdp, hne, hc, hu, hm⟩ |
      ⟨files, cs, ucs, hdp, hne, hc, hu, hor⟩
    · have hmem2 : cu ∈ ([] : List Call) := by rw [hm] at hmem; exact hmem
      exact absurd hmem2 (List.not_mem_nil cu)
    · have hmem2 : cu ∈ cs := by rw [hm] at hmem; exact hmem
      exact absurd hk (cs_no_special args w cs none hdp cu hmem2).1
    · have hmem2 : cu ∈ cs := by rw [hm] at hmem; exact hmem
      exact absurd hk (cs_no_special args w cs (some []) hdp cu hmem2).1
    · exact hds files cs hdp
    · exact hds files cs hdp
    · exact hds files cs hdp
  · intro cu hmem j hk
    rcases main_shape args w with hm | ⟨cs, hdp, hm⟩ | ⟨cs, hdp, hm⟩ |
      ⟨files, cs, hdp, hne, hc, hm⟩ | ⟨files, cs, ucs, hdp, hne, hc, hu, hm⟩ |
      ⟨files, cs, ucs, hdp, hne, hc, hu, hor⟩
    · have hmem2 : cu ∈ ([] : List Call) := by rw [hm] at hmem; exact hmem
      exact absurd hmem2 (List.not_mem_nil cu)
    · have hmem2 : cu ∈ cs := by rw [hm] at hmem; exact hmem
      exact absurd hk ((cs_no_special args w cs none hdp cu hmem2).2.2 j)
    · have hmem2 : cu ∈ cs := by rw [hm] at hmem; exact hmem
      exact absurd hk ((cs_no_special args w cs (some []) hdp cu hmem2).2.2 j)
    · have hmem2 : cu ∈ cs ++ [createCall args] := by rw [hm] at hmem; exact hmem
      rcases List.mem_append.mp hmem2 with h1 | h1
      · exact absurd hk ((cs_no_special args w cs (some files) hdp cu h1).2.2 j)
      · have hce : cu = createCall args := List.mem_singleton.mp h1
        rw [hce] at hk
        exact absurd hk (by simp [createCall])
    · have hmem2 : cu ∈ cs ++ createCall args :: ucs := by
        rw [hm] at hmem; exact hmem
      rcases List.mem_append.mp hmem2 with h1 | h1
      · exact absurd hk ((cs_no_special args w cs (some files) hdp cu h1).2.2 j)
      rcases List.mem_cons.mp h1 with h2 | h2
      · rw [h2] at hk
        exact absurd hk (by simp [createCall])
      · obtain ⟨j2, hkind, -, hearly, -⟩ := ucs_kinds args w files ucs false hu cu h2
        have hjj : NetCall.uploadFile j = NetCall.uploadFile j2 := by
          rw [← hk, hkind]
        have hj : j = j2 := by injection hjj
        exact ⟨hds files cs hdp, hc, fun k hkj => hearly k (hj ▸ hkj)⟩
    · have hL : (main args w).calls
          = cs ++ createCall args :: (ucs ++ [publishCall args w]) := by
        rcases hor with ⟨-, hm⟩ | ⟨-, hm⟩ <;> rw [hm]
      have hmem2 : cu ∈ cs ++ createCall args :: (ucs ++ [publishCall args w]) := by
        rw [hL] at hmem; exact hmem
      rcases mem_four cs ucs (createCall args) (publishCall args w) cu hmem2 with
        h1 | h1 | h1 | h1
      · exact absurd hk ((cs_no_special args w cs (some files) hdp cu h1).2.2 j)
      · rw [h1] at hk
        exact absurd hk (by simp [createCall])
      · obtain ⟨j2, hkind, -, hearly, -⟩ := ucs_kinds args w files ucs true hu cu h1
        have hjj : NetCall.uploadFile j = NetCall.uploadFile j2 := by
          rw [← hk, hkind]
        have hj : j = j2 := by injection hjj
        exact ⟨hds files cs hdp, hc, fun k hkj => hearly k (hj ▸ hkj)⟩
      · rw [h1] at hk
        exact absurd hk (by simp [publishCall])
  · intro cu hmem hk
    rcases main_shape args w with hm | ⟨cs, hdp, hm⟩ | ⟨cs, hdp, hm⟩ |
      ⟨files, cs, hdp, hne, hc, hm⟩ | ⟨files, cs, ucs, hdp, hne, hc, hu, hm⟩ |
      ⟨files, cs, ucs, hdp, hne, hc, hu, hor⟩
    · have hmem2 : cu ∈ ([] : List Call) := by rw [hm] at hmem; exact hmem
      exact absurd hmem2 (List.not_mem_nil cu)
    · have hmem2 : cu ∈ cs := by rw [hm] at hmem; exact hmem
      exact absurd hk (cs_no_special args w cs none hdp cu hmem2).2.1
    · have hmem2 : cu ∈ cs := by rw [hm] at hmem; exact hmem
      exact absurd hk (cs_no_special args w cs (some []) hdp cu hmem2).2.1
    · have hmem2 : cu ∈ cs ++ [createCall args] := by rw [hm] at hmem; exact hmem
      rcases List.mem_append.mp hmem2 with h1 | h1
      · exact absurd hk (cs_no_special args w cs (some files) hdp cu h1).2.1
      · have hce : cu = createCall args := List.mem_singleton.mp h1
        rw [hce] at hk
        exact absurd hk (by simp [createCall])
    · have hmem2 : cu ∈ cs ++ createCall args :: ucs := by
        rw [hm] at hmem; exact hmem
      rcases List.mem_append.mp hmem2 with h1 | h1
      · exact absurd hk (cs_no_special args w cs (some files) hdp cu h1).2.1
      rcases List.mem_cons.mp h1 with h2 | h2
      · rw [h2] at hk
        exact absurd hk (by simp [createCall])
      · obtain ⟨j2, hkind, -, -, -⟩ := ucs_kinds args w files ucs false hu cu h2
        rw [hk] at hkind
        exact absurd hkind (by simp)
    · have hL : (main args w).calls
          = cs ++ createCall args :: (ucs ++ [publishCall args w]) := by
        rcases hor with ⟨-, hm⟩ | ⟨-, hm⟩ <;> rw [hm]
      refine ⟨hds files cs hdp, hc, ?_⟩
      intro cu2 hmem2 j hk2
      have hmem3 : cu2 ∈ cs ++ createCall args :: (ucs ++ [publishCall args w]) := by
        rw [hL] at hmem2; exact hmem2
      rcases mem_four cs ucs (createCall args) (publishCall args w) cu2 hmem3 with
        h1 | h1 | h1 | h1
      · exact absurd hk2 ((cs_no_special args w cs (some files) hdp cu2 h1).2.2 j)
      · rw [h1] at hk2
        exact absurd hk2 (by simp [createCall])
      · obtain ⟨j2, hkind, -, -, hsucc⟩ := ucs_kinds args w files ucs true hu cu2 h1
        have hjj : NetCall.uploadFile j = NetCall.uploadFile j2 := by
          rw [← hk2, hkind]
        have hj : j = j2 := by injection hjj
        rw [hj]
        exact hsucc rfl
      · rw [h1] at hk2
        exact absurd hk2 (by simp [publishCall])
  · intro hskip hbad cu hmem
    rcases main_shape args w with hm | ⟨cs, hdp, hm⟩ | ⟨cs, hdp, hm⟩ |
      ⟨files, cs, hdp, hne, hc, hm⟩ | ⟨files, cs, ucs, hdp, hne, hc, hu, hm⟩ |
      ⟨files, cs, ucs, hdp, hne, hc, hu, hor⟩
    · have hmem2 : cu ∈ ([] : List Call) := by rw [hm] at hmem; exact hmem
      exact absurd hmem2 (List.not_mem_nil cu)
    · have hmem2 : cu ∈ cs := by rw [hm] at hmem; exact hmem
      have hno := cs_no_special args w cs none hdp cu hmem2
      exact ⟨hno.1, hno.2.1⟩
    · have hmem2 : cu ∈ cs := by rw [hm] at hmem; exact hmem
      have hno := cs_no_special args w cs (some []) hdp cu hmem2
      exact ⟨hno.1, hno.2.1⟩
    all_goals {
      rcases hds files cs hdp with h1 | ⟨-, hall⟩
      · rw [hskip] at h1
        exact absurd h1 (by simp)
      · obtain ⟨a, hamem, hafalse⟩ := hbad
        rw [hall a hamem] at hafalse
        exact absurd hafalse (by simp) }
  · intro h0 cu hmem
    rcases main_shape args w with hm | ⟨cs, hdp, hm⟩ | ⟨cs, hdp, hm⟩ |
      ⟨files, cs, hdp, hne, hc, hm⟩ | ⟨files, cs, ucs, hdp, hne, hc, hu, hm⟩ |
      ⟨files, cs, ucs, hdp, hne, hc, hu, hor⟩
    · have h1 : (1 : Nat) = 0 := by rw [hm] at h0; exact h0
      exact absurd h1 (by simp)
    · have h1 : (1 : Nat) = 0 := by rw [hm] at h0; exact h0
      exact absurd h1 (by simp)
    · have h1 : (1 : Nat) = 0 := by rw [hm] at h0; exact h0
      exact absurd h1 (by simp)
    · have h1 : (1 : Nat) = 0 := by rw [hm] at h0; exact h0
      exact absurd h1 (by simp)
    · have h1 : (1 : Nat) = 0 := by rw [hm] at h0; exact h0
      exact absurd h1 (by simp)
    rcases hor with ⟨-, hm⟩ | ⟨hpub, hm⟩
    · have h1 : (1 : Nat) = 0 := by rw [hm] at h0; exact h0
      exact absurd h1 (by simp)
    · have hmem2 : cu ∈ cs ++ createCall args :: (ucs ++ [publishCall args w]) := by
        rw [hm] at hmem; exact hmem
      rcases mem_four cs ucs (createCall args) (publishCall args w) cu hmem2 with
        h1 | h1 | h1 | h1
      · rcases downloadPhase_some args w files cs hdp with ⟨-, -, hcs⟩ |
          ⟨-, hr, hok, -, hcs⟩
        · rw [hcs] at h1
          exact absurd h1 (List.not_mem_nil cu)
        · rw [hcs] at h1
          rcases List.mem_cons.mp h1 with h2 | h2
          · rw [h2]
            simp [callFails, ghCall, hr]
          · obtain ⟨j, a, hget, hkind, hdlok⟩ := runDownloads_mem w.assets 0 cu h2
            rw [hkind]
            have hget2 : w.assets[j]? = some a := by
              rw [← List.get?_eq_getElem?]; exact hget
            simp [callFails, Nat.zero_add, hget2, hdlok hok]
      · rw [h1]
        simp [callFails, createCall, hc]
      · obtain ⟨j, hkind, -, -, hsucc⟩ := ucs_kinds args w files ucs true hu cu h1
        rw [hkind]
        simp [callFails, hsucc rfl]
      · rw [h1]
        simp [callFails, publishCall, hpub]

/-- Witness for C3: in the concrete world whose second asset download fails,
the run performs neither deposition creation nor publishing. -/
theorem pipeline_abort_w :
    ∀ cu ∈ (main argsDl wBadDl).calls,
      cu.kind ≠ NetCall.createDep ∧ cu.kind ≠ NetCall.publish :=
  (pipeline_abort argsDl wBadDl).2.2.2.1 rfl (by decide)

end ZenodoUpload
